import Mathlib

/-! Shallow embedding of rust-sourcebundler (`src/lib.rs`).

A source line is a `String` without its trailing newline; a file is a
`List String`; the filesystem is an association list from path to file
contents, with `File::open` failure modeled by `Option`.  The regexes
built by `source_line_regex` (shorthand: a double space means one or
more whitespace characters, a single space means zero or more; every
pattern is anchored and allows an optional trailing line comment) are
translated into executable character-list matchers, including the
greedy backtracking capture semantics of `.+` and `.*`.  Panics and
io errors — both of which abort a run — are `Except.error` outcomes.
The recursive expansion of `usemod` is driven by a fuel parameter so
that every definition is structurally recursive and kernel-evaluable;
fuel exhaustion is an error distinct from every behavior of the code,
and theorems supply enough fuel for it never to occur. -/

namespace Sourcebundler

/-- Whitespace test.  Regex `\s` and Rust `char::is_whitespace` agree on
the whitespace characters that can occur in a source line. -/
def isWs (c : Char) : Bool := c.isWhitespace

/-- Matches the regex fragment `\s*(?://.*)?$` against the rest of a line:
optional whitespace, then an optional line comment, then end of line.
With the whole pattern anchored, the greedy `\s*` is equivalent to
dropping the maximal whitespace run. -/
def tailEnd (r : List Char) : Bool :=
  let q := r.dropWhile isWs
  q.isEmpty || ['/', '/'].isPrefixOf q

/-- Matches the regex fragment `\s*;\s*(?://.*)?$`: optional whitespace,
a semicolon, then an optional trailing comment. -/
def semiTail (r : List Char) : Bool :=
  match r.dropWhile isWs with
  | ';' :: rest => tailEnd rest
  | _ => false

/-- The bundler's `comment_re`, i.e. `source_line_regex(" ")`, which
expands to `^\s*(?://.*)?$`: a line that is blank or a pure comment. -/
def commentMatch (s : String) : Bool := tailEnd s.data

/-- The bundler's `warn_re`, i.e. `source_line_regex(" #!\[warn\(.*")`,
which expands to `^\s*#!\[warn\(.*(?://.*)?$`: after optional leading
whitespace the line starts with the lint attribute opener; the greedy
`.*` then always absorbs the rest of the line. -/
def warnMatch (s : String) : Bool :=
  ['#', '!', '[', 'w', 'a', 'r', 'n', '('].isPrefixOf (s.data.dropWhile isWs)

/-- Consume an exact literal from the front of the remaining line. -/
def dropLit (lit r : List Char) : Option (List Char) :=
  if lit.isPrefixOf r then some (r.drop lit.length) else none

/-- Consume `\s+`: at least one whitespace character, maximal munch.
Every literal that follows `\s+` in the bundler's patterns starts with a
non-whitespace character (the patterns interpolate identifier-shaped
crate names), so maximal munch agrees with backtracking. -/
def dropWs1 : List Char → Option (List Char)
  | [] => none
  | c :: r => if isWs c then some ((c :: r).dropWhile isWs) else none

/-- Greedy search for the length of a `.+` capture: the largest
`k` with `1 ≤ k ≤ bound` such that what follows the first `k` characters
of `r` matches `\s*;\s*(?://.*)?$`. -/
def findCapLen (r : List Char) : Nat → Option Nat
  | 0 => none
  | k+1 => if semiTail (r.drop (k+1)) then some (k+1) else findCapLen r k

/-- Greedy search for the length of a `.*` capture (zero length allowed). -/
def findCapLen0 (r : List Char) : Nat → Option Nat
  | 0 => if semiTail r then some 0 else none
  | k+1 => if semiTail (r.drop (k+1)) then some (k+1) else findCapLen0 r k

/-- Greedy `.+` capture out of `r`, with the `\s*;\s*(?://.*)?$` tail. -/
def tryBody (r : List Char) : Option (List Char) :=
  (findCapLen r r.length).map (fun k => r.take k)

/-- Backtracking over the width `j` of the `\s+` separating the `mod`
keyword from its `.+` capture: regex engines shrink the earlier greedy
`\s+` only after the later `.+` has exhausted its own choices, so `j`
descends from the maximal whitespace run. -/
def findJ (r : List Char) : Nat → Option (List Char)
  | 0 => none
  | j+1 =>
    match tryBody (r.drop (j+1)) with
    | some cap => some cap
    | none => findJ r j

/-- The part of `mod_re` after the optional visibility qualifier:
`mod  (?P<m>.+) ; ` expands to `mod\s+(?P<m>.+)\s*;\s*(?://.*)?$`. -/
def modKw (r : List Char) : Option String :=
  match dropLit ['m', 'o', 'd'] r with
  | none => none
  | some r1 => (findJ r1 (r1.takeWhile isWs).length).map (fun cap => String.mk cap)

/-- The bundler's `mod_re`, i.e. `source_line_regex(" (pub  )?mod  (?P<m>.+) ; ")`:
returns the captured module name when the line is a module declaration.
The `pub` branch and the bare branch need disjoint first characters, so
trying the qualified branch first is faithful to regex alternation. -/
def modCapture (s : String) : Option String :=
  match dropLit ['p', 'u', 'b'] (s.data.dropWhile isWs) with
  | some r1 =>
    match dropWs1 r1 with
    | some r2 => modKw r2
    | none => modKw (s.data.dropWhile isWs)
  | none => modKw (s.data.dropWhile isWs)

/-- The bundler's `usecrate_re`, i.e.
`source_line_regex(" use  <crate> :: (.*) ; ")`: returns capture group 1
(the module path after the crate qualifier) when the line is a
library-use declaration. -/
def usecrateCapture (crate : String) (s : String) : Option String :=
  match dropLit ['u', 's', 'e'] (s.data.dropWhile isWs) with
  | none => none
  | some r1 =>
    match dropWs1 r1 with
    | none => none
    | some r2 =>
      match dropLit crate.data r2 with
      | none => none
      | some r3 =>
        match dropLit [':', ':'] (r3.dropWhile isWs) with
        | none => none
        | some r4 =>
          let r5 := r4.dropWhile isWs
          (findCapLen0 r5 r5.length).map (fun k => String.mk (r5.take k))

/-- The bundler's `extcrate_re`, i.e.
`source_line_regex(" extern  crate  <crate> ; ")`. -/
def extcrateMatch (crate : String) (s : String) : Bool :=
  match dropLit ['e', 'x', 't', 'e', 'r', 'n'] (s.data.dropWhile isWs) with
  | none => false
  | some r1 =>
    match dropWs1 r1 with
    | none => false
    | some r2 =>
      match dropLit ['c', 'r', 'a', 't', 'e'] r2 with
      | none => false
      | some r3 =>
        match dropWs1 r3 with
        | none => false
        | some r4 =>
          match dropLit crate.data r4 with
          | none => false
          | some r5 => semiTail r5

/-- Strip leading whitespace from a character list. -/
def ltrimL (m : List Char) : List Char := m.dropWhile isWs

/-- Strip trailing whitespace from a character list. -/
def rtrimL (m : List Char) : List Char := (m.reverse.dropWhile isWs).reverse

/-- Strip leading whitespace; this is exactly the effect of
`minify_re.replace_all(line, "$contents")` for the anchored pattern
`^\s*(?P<contents>.*)\s*$`: the pattern matches the whole line once,
the greedy `\s*` absorbs all leading whitespace, and the greedy `.*`
then absorbs everything that remains — including trailing whitespace —
leaving the final `\s*` to match the empty string. -/
def ltrim (s : String) : String := String.mk (ltrimL s.data)

/-- `line.truncate(line.trim_end().len())`: strip trailing whitespace. -/
def rtrim (s : String) : String := String.mk (rtrimL s.data)

/-- `HashSet::insert`: adds the element only when it is not yet present. -/
def hsInsert (x : String) (l : List String) : List String :=
  if x ∈ l then l else x :: l

/-- The bundler state.  `minify_re : Option<Regex>` always holds the one
fixed pattern when present, so it is modeled by the `Bool` recording
whether it is set; `comment_re` and `warn_re` are likewise the fixed
matchers `commentMatch` and `warnMatch`. -/
structure Bundler where
  binrs_filename : String
  bundle_filename : String
  librs_filename : String
  _crate_name : String
  skip_use : List String
  minify_re : Bool
  skip_mod : List String
  strip_comments : Bool
deriving DecidableEq, Repr

/-- The `LIBRS_FILENAME` constant. -/
def LIBRS_FILENAME : String := "src/lib.rs"

/-- `Bundler::new_with_librs`. -/
def Bundler.new_with_librs (binrs_filename bundle_filename librs_filename : String) :
    Bundler :=
  { binrs_filename, bundle_filename, librs_filename,
    _crate_name := "", skip_use := ["*"], minify_re := false,
    skip_mod := ["tests"], strip_comments := true }

/-- `Bundler::new`. -/
def Bundler.new (binrs_filename bundle_filename : String) : Bundler :=
  Bundler.new_with_librs binrs_filename bundle_filename LIBRS_FILENAME

/-- `Bundler::exclude_mod`. -/
def Bundler.exclude_mod (st : Bundler) (mod_name : String) : Bundler :=
  { st with skip_mod := hsInsert mod_name st.skip_mod }

/-- `Bundler::minify_set`. -/
def Bundler.minify_set (st : Bundler) (enable : Bool) : Bundler :=
  { st with minify_re := enable }

/-- `Bundler::strip_comments_set`. -/
def Bundler.strip_comments_set (st : Bundler) (enable : Bool) : Bundler :=
  { st with strip_comments := enable }

/-- `Bundler::crate_name`. -/
def Bundler.crate_name (st : Bundler) (name : String) : Bundler :=
  { st with _crate_name := name }

/-- `Bundler::write_line`: apply the minify replacement when configured,
else write the line as-is (see `ltrim` for the replacement semantics). -/
def write_line (st : Bundler) (line : String) : String :=
  if st.minify_re then ltrim line else line

/-- A filesystem: association list from path to lines. -/
abbrev FS := List (String × List String)

/-- `File::open` on the modeled filesystem. -/
def fsOpen (fs : FS) (path : String) : Option (List String) :=
  (List.find? (fun e => e.1 == path) fs).map (fun e => e.2)

/-- `Path::parent` for the relative slash-separated paths the bundler
builds: drop the last `/`-separated component. -/
def parentDir (p : String) : String :=
  String.mk (((p.data.reverse.dropWhile (fun c => c != '/')).drop 1).reverse)

/-- `Path::join` for the relative paths the bundler builds. -/
def pathJoin (d p : String) : String := if d == "" then p else d ++ "/" ++ p

/-- The module-file resolution in `usemod`: try `<src_dir>/<mod_path>.rs`,
then `<src_dir>/<mod_path>/mod.rs`, first successful open wins (the
candidate iterator is lazy, so the second candidate is only opened when
the first fails). -/
def resolveMod (fs : FS) (dir mod_path : String) : Option (List String) :=
  match fsOpen fs (pathJoin dir (mod_path ++ ".rs")) with
  | some lines => some lines
  | none => fsOpen fs (pathJoin (pathJoin dir mod_path) "mod.rs")

/-- Fatal outcomes: every one aborts the run with the output file left
incomplete.  `noFuel` is the artifact of the fuel encoding and never
arises with enough fuel. -/
inductive BErr where
  | noFuel : BErr
  | missingBin : BErr
  | missingLib : BErr
  | modNotFound (mod_path : String) : BErr
deriving DecidableEq, Repr

/-- A pending piece of the recursive `usemod` expansion: either expand
one module (`emod` = the body of `Bundler::usemod`) or stream the
remaining lines of the currently open module file (`elines` = its
read-line loop). -/
inductive Job where
  | emod (st : Bundler) (mod_name mod_path mod_import : String) : Job
  | elines (st : Bundler) (mod_path mod_import : String) (lines : List String) : Job

/-- The bundler state carried by a job. -/
def jobSt : Job → Bundler
  | .emod st _ _ _ => st
  | .elines st _ _ _ => st

/-- The recursive core of `Bundler::usemod`, fuel-indexed.

`emod st mod_name mod_path mod_import`: resolve the module file (fatal
`assert!` when neither layout opens), emit the opening module-scope
line, insert `mod_import` into `skip_use`, stream the file's lines,
then emit the closing brace.

`elines`: for each line, right-trimmed: skip it when comment/lint
stripping applies; on a module declaration not named `tests` recurse
into the submodule (with path `<mod_path>/<sub>` and import
`<mod_import>::<sub>`); a declaration named `tests` is dropped;
otherwise emit the line through `write_line`. -/
def engine (fs : FS) : Nat → Job → Except BErr (Bundler × List String)
  | 0, _ => .error .noFuel
  | fuel+1, .emod st mod_name mod_path mod_import =>
    match resolveMod fs (parentDir st.librs_filename) mod_path with
    | none => .error (.modNotFound mod_path)
    | some lines =>
      match engine fs fuel
          (.elines { st with skip_use := hsInsert mod_import st.skip_use }
            mod_path mod_import lines) with
      | .error e => .error e
      | .ok (st2, out) =>
        .ok (st2, ("pub mod " ++ mod_name ++ " \x7b") :: (out ++ ["\x7d"]))
  | _+1, .elines st _ _ [] => .ok (st, [])
  | fuel+1, .elines st mod_path mod_import (line :: rest) =>
    let l := rtrim line
    if st.strip_comments && (commentMatch l || warnMatch l) then
      engine fs fuel (.elines st mod_path mod_import rest)
    else
      match modCapture l with
      | some sub =>
        if sub == "tests" then engine fs fuel (.elines st mod_path mod_import rest)
        else
          match engine fs fuel
              (.emod st sub (mod_path ++ "/" ++ sub) (mod_import ++ "::" ++ sub)) with
          | .error e => .error e
          | .ok (st2, out) =>
            match engine fs fuel (.elines st2 mod_path mod_import rest) with
            | .error e => .error e
            | .ok (st3, out2) => .ok (st3, out ++ out2)
      | none =>
        match engine fs fuel (.elines st mod_path mod_import rest) with
        | .error e => .error e
        | .ok (st2, out2) => .ok (st2, write_line st l :: out2)

/-- `Bundler::usemod`. -/
def usemod (fs : FS) (fuel : Nat) (st : Bundler)
    (mod_name mod_path mod_import : String) : Except BErr (Bundler × List String) :=
  engine fs fuel (.emod st mod_name mod_path mod_import)

/-- The read-line loop of `Bundler::librs`.  `read_line` leaves the
trailing newline on the buffer and `librs` removes it with `line.pop()`,
so — unlike `binrs` and `usemod` — the line keeps its trailing
whitespace here.  A module declaration whose captured name is in
`skip_mod` is dropped; other module declarations are expanded through
`usemod`; remaining lines go through `write_line`. -/
def librsLines (fs : FS) (fuel : Nat) : Bundler → List String →
    Except BErr (Bundler × List String)
  | st, [] => .ok (st, [])
  | st, line :: rest =>
    if st.strip_comments && (commentMatch line || warnMatch line) then
      librsLines fs fuel st rest
    else
      match modCapture line with
      | some modname =>
        if modname ∈ st.skip_mod then librsLines fs fuel st rest
        else
          match usemod fs fuel st modname modname modname with
          | .error e => .error e
          | .ok (st2, out) =>
            match librsLines fs fuel st2 rest with
            | .error e => .error e
            | .ok (st3, out2) => .ok (st3, out ++ out2)
      | none =>
        match librsLines fs fuel st rest with
        | .error e => .error e
        | .ok (st2, out2) => .ok (st2, write_line st line :: out2)

/-- `Bundler::librs`: open the library root file (a failed open is the
`expect` panic) and stream its lines. -/
def librs (fs : FS) (fuel : Nat) (st : Bundler) : Except BErr (Bundler × List String) :=
  match fsOpen fs st.librs_filename with
  | none => .error .missingLib
  | some lines => librsLines fs fuel st lines

/-- The read-line loop of `Bundler::binrs`; each line is right-trimmed
by `line.truncate(line.trim_end().len())`.  On the extern-crate line the
library root is expanded in place; a library-use line is elided when its
captured path is in `skip_use` and otherwise rewritten to a bare `use`
of the path (written directly, bypassing `write_line`); all other lines
go through `write_line`.  `crate` is the `_crate_name` the two regexes
were built from when `binrs` started. -/
def binrsLines (fs : FS) (fuel : Nat) (crate : String) : Bundler → List String →
    Except BErr (Bundler × List String)
  | st, [] => .ok (st, [])
  | st, line :: rest =>
    let l := rtrim line
    if st.strip_comments && (commentMatch l || warnMatch l) then
      binrsLines fs fuel crate st rest
    else if extcrateMatch crate l then
      match librs fs fuel st with
      | .error e => .error e
      | .ok (st2, out) =>
        match binrsLines fs fuel crate st2 rest with
        | .error e => .error e
        | .ok (st3, out2) => .ok (st3, out ++ out2)
    else
      match usecrateCapture crate l with
      | some moduse =>
        if moduse ∈ st.skip_use then binrsLines fs fuel crate st rest
        else
          match binrsLines fs fuel crate st rest with
          | .error e => .error e
          | .ok (st2, out2) => .ok (st2, ("use " ++ moduse ++ ";") :: out2)
      | none =>
        match binrsLines fs fuel crate st rest with
        | .error e => .error e
        | .ok (st2, out2) => .ok (st2, write_line st l :: out2)

/-- `Bundler::binrs`: open the entry file and stream its lines. -/
def binrs (fs : FS) (fuel : Nat) (st : Bundler) : Except BErr (Bundler × List String) :=
  match fsOpen fs st.binrs_filename with
  | none => .error .missingBin
  | some lines => binrsLines fs fuel st._crate_name st lines

/-- `Bundler::run`: create the output file (the sink always succeeds in
the model; its lines are the returned list) and expand the entry file.
`run` performs no state reset: it reuses the bundler state as-is. -/
def run (fs : FS) (fuel : Nat) (st : Bundler) : Except BErr (Bundler × List String) :=
  binrs fs fuel st

/-! Module trees, for the depth-first ordering claim.  A forest lists, in
declaration order, the lines of one module file: plain body lines and
nested module declarations (each carrying its own forest of children). -/

/-- A forest of module-file items in declaration order. -/
inductive MForest where
  | fnil : MForest
  | fmod (name : String) (children : MForest) (rest : MForest) : MForest
  | fplain (s : String) (rest : MForest) : MForest
deriving DecidableEq, Repr

/-- The lines of the module file described by a forest: one `mod <n>;`
declaration per nested module, plain lines verbatim. -/
def bodyLines : MForest → List String
  | .fnil => []
  | .fmod n _ r => ("mod " ++ n ++ ";") :: bodyLines r
  | .fplain s r => s :: bodyLines r

/-- The depth-first, declaration-order emission of a forest: each nested
module contributes its opening marker, its fully expanded body
(descendants included), and its closing brace before the next sibling
item starts; plain lines are emitted in place. -/
def outF : MForest → List String
  | .fnil => []
  | .fmod n c r => (("pub mod " ++ n ++ " \x7b") :: (outF c ++ ["\x7d"])) ++ outF r
  | .fplain s r => s :: outF r

/-- A module name as produced by a well-formed declaration capture:
nonempty and not starting with whitespace. -/
def goodName (n : String) : Bool :=
  match n.data with
  | [] => false
  | c :: _ => !isWs c

/-- A line that every walker treats as plain text: matches no recognized
shape and carries no surrounding whitespace, so it is emitted verbatim
under every comment-stripping and minification setting. -/
def plainLine (s : String) : Bool :=
  (rtrim s == s) && (ltrim s == s) && !commentMatch s && !warnMatch s
    && (modCapture s).isNone

/-- Well-formedness of a forest: module names are good and never the
excluded literal `tests`; body lines are plain. -/
def wfF : MForest → Bool
  | .fnil => true
  | .fmod n c r => goodName n && (n != "tests") && wfF c && wfF r
  | .fplain s r => plainLine s && wfF r

/-- Enough fuel to stream a forest's lines (one unit per recursion step). -/
def needF : MForest → Nat
  | .fnil => 1
  | .fmod _ c r => max (needF c + 1) (needF r) + 1
  | .fplain _ r => needF r + 1

/-- The filesystem realizes a forest below `path`: each nested module's
flat-layout file holds exactly the lines of its own forest. -/
def fsHasF (fs : FS) (dir : String) : String → MForest → Bool
  | _, .fnil => true
  | path, .fmod n c r =>
    (fsOpen fs (pathJoin dir ((path ++ "/" ++ n) ++ ".rs")) == some (bodyLines c))
      && fsHasF fs dir (path ++ "/" ++ n) c && fsHasF fs dir path r
  | path, .fplain _ r => fsHasF fs dir path r

/-! ### Concrete scenarios for counterexamples and witnesses -/

/-- `Bundler::new` plus `crate_name("mylib")`. -/
def stMylib : Bundler := (Bundler.new "main.rs" "bundle.rs").crate_name "mylib"

/-- Entry file importing the library, root declaring `mod a;`, and the
module body of `a` holding a self-referential library-use line. -/
def fsSelfUse : FS :=
  [("main.rs", ["extern crate mylib;"]),
   ("src/lib.rs", ["mod a;"]),
   ("src/a.rs", ["use mylib::a;"])]

/-- The bundler state after expanding module `a` of `fsSelfUse`. -/
def stSelfUseAfter : Bundler := { stMylib with skip_use := ["a", "*"] }

/-- The children forest of the spec's example module `A`: `B` (which
nests `D`) followed by `C`. -/
def forestA : MForest :=
  .fmod "B" (.fmod "D" .fnil .fnil) (.fmod "C" .fnil .fnil)

/-- The filesystem realizing the example tree `A { B { D }, C }`. -/
def fsTreeA : FS :=
  [("src/A.rs", ["mod B;", "mod C;"]),
   ("src/A/B.rs", ["mod D;"]),
   ("src/A/B/D.rs", []),
   ("src/A/C.rs", [])]

/-- A freshly constructed bundler (library root `src/lib.rs`). -/
def stTreeA : Bundler := Bundler.new "main.rs" "bundle.rs"

/-- A library root line carrying surrounding whitespace, for minify. -/
def fsMinify : FS :=
  [("main.rs", ["extern crate mylib;"]),
   ("src/lib.rs", ["   let x = 1;   "])]

/-- `stMylib` with minification enabled. -/
def stMinify : Bundler := stMylib.minify_set true

/-- A library root line with trailing whitespace, default settings. -/
def fsTrail : FS :=
  [("main.rs", ["extern crate mylib;"]),
   ("src/lib.rs", ["x();  "])]

/-- A single leaf module file whose only line carries trailing spaces. -/
def fsLeaf : FS := [("src/m.rs", ["x();  "])]

/-- A fresh bundler with comment stripping disabled. -/
def stLeaf : Bundler := (Bundler.new "m.rs" "b.rs").strip_comments_set false

/-- Entry file whose library-use line precedes the library-extern line,
so the first run emits the rewritten import before `a` is embedded. -/
def fsTwoRun : FS :=
  [("main.rs", ["use mylib::a;", "extern crate mylib;"]),
   ("src/lib.rs", ["mod a;"]),
   ("src/a.rs", [])]

/-- The bundler state after the first run over `fsTwoRun`. -/
def stTwoAfter : Bundler := { stMylib with skip_use := ["a", "*"] }

/-! ### Basic lemmas about trims and matchers -/

theorem data_mk (l : List Char) : (String.mk l).data = l := rfl

theorem mk_data (s : String) : String.mk s.data = s := rfl

theorem dropWhile_cons_neg {p : Char → Bool} {c : Char} {l : List Char}
    (h : p c = false) : (c :: l).dropWhile p = c :: l := by
  simp [List.dropWhile_cons, h]

theorem dropWhile_idem (p : Char → Bool) (l : List Char) :
    (l.dropWhile p).dropWhile p = l.dropWhile p := by
  induction l with
  | nil => rfl
  | cons c l ih =>
    cases h : p c
    · rw [dropWhile_cons_neg h, dropWhile_cons_neg h]
    · simp [List.dropWhile_cons, h, ih]

theorem rtrimL_concat_nonws (l : List Char) (c : Char) (h : isWs c = false) :
    rtrimL (l ++ [c]) = l ++ [c] := by
  simp [rtrimL, List.reverse_append, dropWhile_cons_neg h]

theorem rtrimL_idem (m : List Char) : rtrimL (rtrimL m) = rtrimL m := by
  unfold rtrimL
  rw [List.reverse_reverse, dropWhile_idem]

theorem rtrim_idem (s : String) : rtrim (rtrim s) = rtrim s := by
  simp [rtrim, data_mk, rtrimL_idem]

theorem rtrim_semi (s : String) : rtrim (s ++ ";") = s ++ ";" := by
  have h : (s ++ ";").data = s.data ++ [';'] := by rw [String.data_append]
  rw [rtrim, h, rtrimL_concat_nonws _ _ (by decide), ← h]

theorem modLine_data (n : String) :
    ("mod " ++ n ++ ";").data = 'm' :: 'o' :: 'd' :: ' ' :: (n.data ++ [';']) := by
  rw [String.data_append, String.data_append]
  rfl

theorem commentMatch_of_head (s : String) (x : Char) (xs : List Char)
    (hr : s.data.dropWhile isWs = x :: xs) (h2 : x ≠ '/') :
    commentMatch s = false := by
  have hx : ('/' == x) = false := beq_eq_false_iff_ne.mpr fun e => h2 e.symm
  unfold commentMatch tailEnd
  rw [hr]
  simp [List.isPrefixOf, hx]

theorem warnMatch_of_head (s : String) (x : Char) (xs : List Char)
    (hr : s.data.dropWhile isWs = x :: xs) (h2 : x ≠ '#') :
    warnMatch s = false := by
  have hx : ('#' == x) = false := beq_eq_false_iff_ne.mpr fun e => h2 e.symm
  unfold warnMatch
  rw [hr]
  simp [List.isPrefixOf, hx]

theorem dropLit_some_head (a : Char) (as r r' : List Char)
    (h : dropLit (a :: as) r = some r') : ∃ ys, r = a :: ys := by
  unfold dropLit at h
  by_cases hp : (a :: as).isPrefixOf r = true
  · cases r with
    | nil => simp [List.isPrefixOf] at hp
    | cons y ys =>
      refine ⟨ys, ?_⟩
      unfold List.isPrefixOf at hp
      simp only [Bool.and_eq_true, beq_iff_eq] at hp
      rw [hp.1]
  · rw [if_neg hp] at h
    cases h

theorem modKw_some_head (r : List Char) (m : String) (h : modKw r = some m) :
    ∃ ys, r = 'm' :: ys := by
  unfold modKw at h
  cases hd : dropLit ['m', 'o', 'd'] r with
  | none => rw [hd] at h; cases h
  | some r1 => exact dropLit_some_head _ _ _ _ hd

theorem modCapture_shape (s : String) (m : String) (h : modCapture s = some m) :
    commentMatch s = false ∧ warnMatch s = false := by
  unfold modCapture at h
  cases hp : dropLit ['p', 'u', 'b'] (s.data.dropWhile isWs) with
  | some r1 =>
    obtain ⟨ys, hys⟩ := dropLit_some_head _ _ _ _ hp
    exact ⟨commentMatch_of_head s _ _ hys (by decide),
      warnMatch_of_head s _ _ hys (by decide)⟩
  | none =>
    rw [hp] at h
    obtain ⟨ys, hys⟩ := modKw_some_head _ _ h
    exact ⟨commentMatch_of_head s _ _ hys (by decide),
      warnMatch_of_head s _ _ hys (by decide)⟩

theorem plainLine_spec (s : String) (h : plainLine s = true) :
    rtrim s = s ∧ ltrim s = s ∧ commentMatch s = false ∧ warnMatch s = false ∧
      modCapture s = none := by
  unfold plainLine at h
  simp only [Bool.and_eq_true, Bool.not_eq_true', Option.isNone_iff_eq_none] at h
  exact ⟨eq_of_beq h.1.1.1.1, eq_of_beq h.1.1.1.2, h.1.1.2, h.1.2, h.2⟩

theorem write_line_plain (st : Bundler) (s : String) (hl : ltrim s = s) :
    write_line st s = s := by
  unfold write_line
  rw [hl, ite_self]

theorem modKw_modLine (c : Char) (cr : List Char) (hc : isWs c = false) :
    modKw ('m' :: 'o' :: 'd' :: ' ' :: ((c :: cr) ++ [';'])) = some (String.mk (c :: cr)) := by
  have hsp : isWs ' ' = true := by decide
  have hpre : dropLit ['m', 'o', 'd'] ('m' :: 'o' :: 'd' :: ' ' :: ((c :: cr) ++ [';']))
      = some (' ' :: ((c :: cr) ++ [';'])) := by
    unfold dropLit
    rw [if_pos]
    · rfl
    · simp [List.isPrefixOf]
  have htw : ((' ' :: ((c :: cr) ++ [';'])).takeWhile isWs).length = 1 := by
    simp [List.takeWhile_cons, hsp, hc]
  have hX : ((c :: cr) ++ [';']).length = cr.length + 1 + 1 := by simp
  have hs0 : semiTail ([] : List Char) = false := by decide
  have hs1 : semiTail [';'] = true := by decide
  have hd2 : ((c :: cr) ++ [';']).drop (cr.length + 1 + 1) = [] := by
    rw [← hX]
    exact List.drop_length _
  have hd1 : ((c :: cr) ++ [';']).drop (cr.length + 1) = [';'] := by
    rw [show cr.length + 1 = (c :: cr).length from by simp]
    exact List.drop_left _ _
  have ht1 : ((c :: cr) ++ [';']).take (cr.length + 1) = c :: cr := by
    rw [show cr.length + 1 = (c :: cr).length from by simp]
    exact List.take_left _ _
  have hcap : findCapLen ((c :: cr) ++ [';']) (((c :: cr) ++ [';']).length)
      = some (cr.length + 1) := by
    rw [hX]
    simp only [findCapLen]
    rw [hd2, hd1]
    simp [hs0, hs1]
  have hfj : findJ (' ' :: ((c :: cr) ++ [';'])) 1 = some (c :: cr) := by
    rw [show (1 : Nat) = 0 + 1 from rfl]
    simp only [findJ]
    rw [show (' ' :: ((c :: cr) ++ [';'])).drop (0 + 1) = (c :: cr) ++ [';'] from rfl]
    unfold tryBody
    rw [hcap]
    simp [ht1]
  unfold modKw
  rw [hpre]
  show (findJ (' ' :: ((c :: cr) ++ [';']))
      ((List.takeWhile isWs (' ' :: ((c :: cr) ++ [';']))).length)).map
      (fun cap => String.mk cap) = some (String.mk (c :: cr))
  rw [htw, hfj]
  rfl

theorem modCapture_modLine (n : String) (h : goodName n = true) :
    modCapture ("mod " ++ n ++ ";") = some n := by
  obtain ⟨c, cr, hcd, hc⟩ : ∃ c cr, n.data = c :: cr ∧ isWs c = false := by
    unfold goodName at h
    cases hd : n.data with
    | nil => rw [hd] at h; exact absurd h (by simp)
    | cons c cr =>
      rw [hd] at h
      exact ⟨c, cr, rfl, by simpa using h⟩
  unfold modCapture
  rw [modLine_data, hcd,
    dropWhile_cons_neg (show isWs 'm' = false from by decide)]
  have hpub : dropLit ['p', 'u', 'b'] ('m' :: 'o' :: 'd' :: ' ' :: ((c :: cr) ++ [';']))
      = none := by
    have hnp : (['p', 'u', 'b'].isPrefixOf
        ('m' :: 'o' :: 'd' :: ' ' :: ((c :: cr) ++ [';']))) = false := by
      unfold List.isPrefixOf
      simp [show ('p' == 'm') = false from by decide]
    unfold dropLit
    rw [hnp]
    simp
  rw [hpub]
  show modKw ('m' :: 'o' :: 'd' :: ' ' :: ((c :: cr) ++ [';'])) = some n
  rw [modKw_modLine c cr hc, ← hcd, mk_data]

/-! ### Step lemmas: one line of each walker loop -/

theorem elines_nil (fs : FS) (fuel : Nat) (st : Bundler) (p i : String) :
    engine fs (fuel+1) (.elines st p i []) = .ok (st, []) := rfl

theorem elines_step_skip (fs : FS) (fuel : Nat) (st : Bundler) (p i line : String)
    (rest : List String)
    (hc : (st.strip_comments && (commentMatch (rtrim line) || warnMatch (rtrim line))) = true) :
    engine fs (fuel+1) (.elines st p i (line :: rest)) =
      engine fs fuel (.elines st p i rest) := by
  simp [engine, hc]

theorem elines_step_tests (fs : FS) (fuel : Nat) (st : Bundler) (p i line : String)
    (rest : List String)
    (hc : (st.strip_comments && (commentMatch (rtrim line) || warnMatch (rtrim line))) = false)
    (hm : modCapture (rtrim line) = some "tests") :
    engine fs (fuel+1) (.elines st p i (line :: rest)) =
      engine fs fuel (.elines st p i rest) := by
  simp [engine, hc, hm]

theorem elines_step_mod (fs : FS) (fuel : Nat) (st : Bundler) (p i line sub : String)
    (rest : List String)
    (hc : (st.strip_comments && (commentMatch (rtrim line) || warnMatch (rtrim line))) = false)
    (hm : modCapture (rtrim line) = some sub) (hs : sub ≠ "tests") :
    engine fs (fuel+1) (.elines st p i (line :: rest)) =
      match engine fs fuel (.emod st sub (p ++ "/" ++ sub) (i ++ "::" ++ sub)) with
      | .error e => .error e
      | .ok (st2, out) =>
        match engine fs fuel (.elines st2 p i rest) with
        | .error e => .error e
        | .ok (st3, out2) => .ok (st3, out ++ out2) := by
  have hb : (sub == "tests") = false := beq_eq_false_iff_ne.mpr hs
  simp [engine, hc, hm, hb]

theorem elines_step_plain (fs : FS) (fuel : Nat) (st : Bundler) (p i line : String)
    (rest : List String)
    (hc : (st.strip_comments && (commentMatch (rtrim line) || warnMatch (rtrim line))) = false)
    (hm : modCapture (rtrim line) = none) :
    engine fs (fuel+1) (.elines st p i (line :: rest)) =
      match engine fs fuel (.elines st p i rest) with
      | .error e => .error e
      | .ok (st2, out2) => .ok (st2, write_line st (rtrim line) :: out2) := by
  simp [engine, hc, hm]

theorem emod_unfold_found (fs : FS) (fuel : Nat) (st : Bundler) (n p i : String)
    (lines : List String)
    (hr : resolveMod fs (parentDir st.librs_filename) p = some lines) :
    engine fs (fuel+1) (.emod st n p i) =
      match engine fs fuel
          (.elines { st with skip_use := hsInsert i st.skip_use } p i lines) with
      | .error e => .error e
      | .ok (st2, out) =>
        .ok (st2, ("pub mod " ++ n ++ " \x7b") :: (out ++ ["\x7d"])) := by
  simp [engine, hr]

theorem emod_unfold_missing (fs : FS) (fuel : Nat) (st : Bundler) (n p i : String)
    (hr : resolveMod fs (parentDir st.librs_filename) p = none) :
    engine fs (fuel+1) (.emod st n p i) = .error (.modNotFound p) := by
  simp [engine, hr]

theorem librs_nil (fs : FS) (fuel : Nat) (st : Bundler) :
    librsLines fs fuel st [] = .ok (st, []) := rfl

theorem librs_step_skip (fs : FS) (fuel : Nat) (st : Bundler) (line : String)
    (rest : List String)
    (hc : (st.strip_comments && (commentMatch line || warnMatch line)) = true) :
    librsLines fs fuel st (line :: rest) = librsLines fs fuel st rest := by
  simp [librsLines, hc]

theorem librs_step_skipmod (fs : FS) (fuel : Nat) (st : Bundler) (line m : String)
    (rest : List String)
    (hc : (st.strip_comments && (commentMatch line || warnMatch line)) = false)
    (hm : modCapture line = some m) (hmem : m ∈ st.skip_mod) :
    librsLines fs fuel st (line :: rest) = librsLines fs fuel st rest := by
  simp [librsLines, hc, hm, hmem]

theorem librs_step_mod (fs : FS) (fuel : Nat) (st : Bundler) (line m : String)
    (rest : List String)
    (hc : (st.strip_comments && (commentMatch line || warnMatch line)) = false)
    (hm : modCapture line = some m) (hnm : m ∉ st.skip_mod) :
    librsLines fs fuel st (line :: rest) =
      match usemod fs fuel st m m m with
      | .error e => .error e
      | .ok (st2, out) =>
        match librsLines fs fuel st2 rest with
        | .error e => .error e
        | .ok (st3, out2) => .ok (st3, out ++ out2) := by
  simp [librsLines, hc, hm, hnm]

theorem librs_step_plain (fs : FS) (fuel : Nat) (st : Bundler) (line : String)
    (rest : List String)
    (hc : (st.strip_comments && (commentMatch line || warnMatch line)) = false)
    (hm : modCapture line = none) :
    librsLines fs fuel st (line :: rest) =
      match librsLines fs fuel st rest with
      | .error e => .error e
      | .ok (st2, out2) => .ok (st2, write_line st line :: out2) := by
  simp [librsLines, hc, hm]

theorem binrs_nil (fs : FS) (fuel : Nat) (crate : String) (st : Bundler) :
    binrsLines fs fuel crate st [] = .ok (st, []) := rfl

theorem binrs_step_skip (fs : FS) (fuel : Nat) (crate : String) (st : Bundler)
    (line : String) (rest : List String)
    (hc : (st.strip_comments && (commentMatch (rtrim line) || warnMatch (rtrim line))) = true) :
    binrsLines fs fuel crate st (line :: rest) = binrsLines fs fuel crate st rest := by
  simp [binrsLines, hc]

theorem binrs_step_ext (fs : FS) (fuel : Nat) (crate : String) (st : Bundler)
    (line : String) (rest : List String)
    (hc : (st.strip_comments && (commentMatch (rtrim line) || warnMatch (rtrim line))) = false)
    (he : extcrateMatch crate (rtrim line) = true) :
    binrsLines fs fuel crate st (line :: rest) =
      match librs fs fuel st with
      | .error e => .error e
      | .ok (st2, out) =>
        match binrsLines fs fuel crate st2 rest with
        | .error e => .error e
        | .ok (st3, out2) => .ok (st3, out ++ out2) := by
  simp [binrsLines, hc, he]

theorem binrs_step_use_skip (fs : FS) (fuel : Nat) (crate : String) (st : Bundler)
    (line p : String) (rest : List String)
    (hc : (st.strip_comments && (commentMatch (rtrim line) || warnMatch (rtrim line))) = false)
    (he : extcrateMatch crate (rtrim line) = false)
    (hu : usecrateCapture crate (rtrim line) = some p) (hp : p ∈ st.skip_use) :
    binrsLines fs fuel crate st (line :: rest) = binrsLines fs fuel crate st rest := by
  simp [binrsLines, hc, he, hu, hp]

theorem binrs_step_use_emit (fs : FS) (fuel : Nat) (crate : String) (st : Bundler)
    (line p : String) (rest : List String)
    (hc : (st.strip_comments && (commentMatch (rtrim line) || warnMatch (rtrim line))) = false)
    (he : extcrateMatch crate (rtrim line) = false)
    (hu : usecrateCapture crate (rtrim line) = some p) (hp : p ∉ st.skip_use) :
    binrsLines fs fuel crate st (line :: rest) =
      match binrsLines fs fuel crate st rest with
      | .error e => .error e
      | .ok (st2, out2) => .ok (st2, ("use " ++ p ++ ";") :: out2) := by
  simp [binrsLines, hc, he, hu, hp]

theorem binrs_step_plain (fs : FS) (fuel : Nat) (crate : String) (st : Bundler)
    (line : String) (rest : List String)
    (hc : (st.strip_comments && (commentMatch (rtrim line) || warnMatch (rtrim line))) = false)
    (he : extcrateMatch crate (rtrim line) = false)
    (hu : usecrateCapture crate (rtrim line) = none) :
    binrsLines fs fuel crate st (line :: rest) =
      match binrsLines fs fuel crate st rest with
      | .error e => .error e
      | .ok (st2, out2) => .ok (st2, write_line st (rtrim line) :: out2) := by
  simp [binrsLines, hc, he, hu]

theorem mem_hsInsert (x a : String) (l : List String) :
    x ∈ hsInsert a l ↔ x = a ∨ x ∈ l := by
  unfold hsInsert
  by_cases h : a ∈ l
  · rw [if_pos h]
    constructor
    · exact fun hx => .inr hx
    · rintro (rfl | hx)
      · exact h
      · exact hx
  · rw [if_neg h]
    exact List.mem_cons

theorem subset_hsInsert (a : String) (l : List String) : l ⊆ hsInsert a l :=
  fun _ hx => (mem_hsInsert _ _ _).mpr (.inr hx)

theorem mem_hsInsert_self (a : String) (l : List String) : a ∈ hsInsert a l :=
  (mem_hsInsert _ _ _).mpr (.inl rfl)

/-! ### Composed step lemmas with known sub-results -/

theorem elines_mod_ok (fs : FS) (fuel : Nat) (st : Bundler) (p i line sub : String)
    (rest : List String) (stA stB : Bundler) (outA outB : List String)
    (hc : (st.strip_comments && (commentMatch (rtrim line) || warnMatch (rtrim line))) = false)
    (hm : modCapture (rtrim line) = some sub) (hs : sub ≠ "tests")
    (h1 : engine fs fuel (.emod st sub (p ++ "/" ++ sub) (i ++ "::" ++ sub)) = .ok (stA, outA))
    (h2 : engine fs fuel (.elines stA p i rest) = .ok (stB, outB)) :
    engine fs (fuel+1) (.elines st p i (line :: rest)) = .ok (stB, outA ++ outB) := by
  rw [elines_step_mod fs fuel st p i line sub rest hc hm hs, h1]
  simp [h2]

theorem elines_plain_ok (fs : FS) (fuel : Nat) (st : Bundler) (p i line : String)
    (rest : List String) (stB : Bundler) (outB : List String)
    (hc : (st.strip_comments && (commentMatch (rtrim line) || warnMatch (rtrim line))) = false)
    (hm : modCapture (rtrim line) = none)
    (h2 : engine fs fuel (.elines st p i rest) = .ok (stB, outB)) :
    engine fs (fuel+1) (.elines st p i (line :: rest)) =
      .ok (stB, write_line st (rtrim line) :: outB) := by
  rw [elines_step_plain fs fuel st p i line rest hc hm, h2]

theorem emod_ok (fs : FS) (fuel : Nat) (st : Bundler) (n p i : String)
    (lines : List String) (st2 : Bundler) (out : List String)
    (hr : resolveMod fs (parentDir st.librs_filename) p = some lines)
    (h1 : engine fs fuel
        (.elines { st with skip_use := hsInsert i st.skip_use } p i lines) = .ok (st2, out)) :
    engine fs (fuel+1) (.emod st n p i) =
      .ok (st2, ("pub mod " ++ n ++ " \x7b") :: (out ++ ["\x7d"])) := by
  rw [emod_unfold_found fs fuel st n p i lines hr, h1]

/-! ### Monotonicity of the skip set and invariance of every other field -/

theorem engine_skip_mono (fs : FS) :
    ∀ (fuel : Nat) (j : Job) (st2 : Bundler) (out : List String),
      engine fs fuel j = .ok (st2, out) → (jobSt j).skip_use ⊆ st2.skip_use := by
  intro fuel
  induction fuel with
  | zero =>
    intro j st2 out h
    exact absurd h (by simp [engine])
  | succ f ih =>
    intro j st2 out h
    cases j with
    | emod st name path imp =>
      cases hr : resolveMod fs (parentDir st.librs_filename) path with
      | none => rw [emod_unfold_missing fs f st name path imp hr] at h; cases h
      | some lines =>
        rw [emod_unfold_found fs f st name path imp lines hr] at h
        split at h
        · cases h
        · rename_i stA outA heq
          cases h
          exact fun x hx => ih _ _ _ heq (subset_hsInsert imp st.skip_use hx)
    | elines st path imp lines =>
      cases lines with
      | nil =>
        rw [elines_nil] at h
        cases h
        exact fun _ hx => hx
      | cons line rest =>
        cases hc : (st.strip_comments && (commentMatch (rtrim line) || warnMatch (rtrim line))) with
        | true =>
          rw [elines_step_skip fs f st path imp line rest hc] at h
          have hh := ih _ _ _ h
          exact hh
        | false =>
          cases hm : modCapture (rtrim line) with
          | some sub =>
            by_cases hs : sub = "tests"
            · rw [hs] at hm
              rw [elines_step_tests fs f st path imp line rest hc hm] at h
              have hh := ih _ _ _ h
              exact hh
            · rw [elines_step_mod fs f st path imp line sub rest hc hm hs] at h
              split at h
              · cases h
              · rename_i stA out1 heq1
                split at h
                · cases h
                · rename_i stB out2 heq2
                  cases h
                  exact fun x hx => ih _ _ _ heq2 (ih _ _ _ heq1 hx)
          | none =>
            rw [elines_step_plain fs f st path imp line rest hc hm] at h
            split at h
            · cases h
            · rename_i stB out2 heq
              cases h
              exact fun x hx => ih _ _ _ heq hx

theorem engine_fields (fs : FS) :
    ∀ (fuel : Nat) (j : Job) (st2 : Bundler) (out : List String),
      engine fs fuel j = .ok (st2, out) →
      st2 = { jobSt j with skip_use := st2.skip_use } := by
  intro fuel
  induction fuel with
  | zero =>
    intro j st2 out h
    exact absurd h (by simp [engine])
  | succ f ih =>
    intro j st2 out h
    cases j with
    | emod st name path imp =>
      cases hr : resolveMod fs (parentDir st.librs_filename) path with
      | none => rw [emod_unfold_missing fs f st name path imp hr] at h; cases h
      | some lines =>
        rw [emod_unfold_found fs f st name path imp lines hr] at h
        split at h
        · cases h
        · rename_i stA outA heq
          cases h
          have hh := ih _ _ _ heq
          exact hh
    | elines st path imp lines =>
      cases lines with
      | nil =>
        rw [elines_nil] at h
        cases h
        rfl
      | cons line rest =>
        cases hc : (st.strip_comments && (commentMatch (rtrim line) || warnMatch (rtrim line))) with
        | true =>
          rw [elines_step_skip fs f st path imp line rest hc] at h
          have hh := ih _ _ _ h
          exact hh
        | false =>
          cases hm : modCapture (rtrim line) with
          | some sub =>
            by_cases hs : sub = "tests"
            · rw [hs] at hm
              rw [elines_step_tests fs f st path imp line rest hc hm] at h
              have hh := ih _ _ _ h
              exact hh
            · rw [elines_step_mod fs f st path imp line sub rest hc hm hs] at h
              split at h
              · cases h
              · rename_i stA out1 heq1
                split at h
                · cases h
                · rename_i stB out2 heq2
                  cases h
                  have h1 := ih _ _ _ heq1
                  have h2 := ih _ _ _ heq2
                  rw [h1] at h2
                  exact h2
          | none =>
            rw [elines_step_plain fs f st path imp line rest hc hm] at h
            split at h
            · cases h
            · rename_i stB out2 heq
              cases h
              have hh := ih _ _ _ heq
              exact hh

theorem librsLines_skip_mono (fs : FS) (fuel : Nat) :
    ∀ (lines : List String) (st st2 : Bundler) (out : List String),
      librsLines fs fuel st lines = .ok (st2, out) → st.skip_use ⊆ st2.skip_use := by
  intro lines
  induction lines with
  | nil =>
    intro st st2 out h
    rw [librs_nil] at h
    cases h
    exact fun _ hx => hx
  | cons line rest ih =>
    intro st st2 out h
    cases hc : (st.strip_comments && (commentMatch line || warnMatch line)) with
    | true =>
      rw [librs_step_skip fs fuel st line rest hc] at h
      exact ih _ _ _ h
    | false =>
      cases hm : modCapture line with
      | some m =>
        by_cases hmem : m ∈ st.skip_mod
        · rw [librs_step_skipmod fs fuel st line m rest hc hm hmem] at h
          exact ih _ _ _ h
        · rw [librs_step_mod fs fuel st line m rest hc hm hmem] at h
          split at h
          · cases h
          · rename_i stA outA heq1
            split at h
            · cases h
            · rename_i stB outB heq2
              cases h
              have heq1' : engine fs fuel (.emod st m m m) = .ok (stA, outA) := heq1
              exact fun x hx =>
                ih _ _ _ heq2 (engine_skip_mono fs fuel _ _ _ heq1' hx)
      | none =>
        rw [librs_step_plain fs fuel st line rest hc hm] at h
        split at h
        · cases h
        · rename_i stB outB heq
          cases h
          exact fun x hx => ih _ _ _ heq hx

theorem librs_skip_mono (fs : FS) (fuel : Nat) (st st2 : Bundler) (out : List String)
    (h : librs fs fuel st = .ok (st2, out)) : st.skip_use ⊆ st2.skip_use := by
  unfold librs at h
  cases ho : fsOpen fs st.librs_filename with
  | none => rw [ho] at h; cases h
  | some lines =>
    rw [ho] at h
    exact librsLines_skip_mono fs fuel lines st st2 out h

theorem binrsLines_skip_mono (fs : FS) (fuel : Nat) (crate : String) :
    ∀ (lines : List String) (st st2 : Bundler) (out : List String),
      binrsLines fs fuel crate st lines = .ok (st2, out) → st.skip_use ⊆ st2.skip_use := by
  intro lines
  induction lines with
  | nil =>
    intro st st2 out h
    rw [binrs_nil] at h
    cases h
    exact fun _ hx => hx
  | cons line rest ih =>
    intro st st2 out h
    cases hc : (st.strip_comments && (commentMatch (rtrim line) || warnMatch (rtrim line))) with
    | true =>
      rw [binrs_step_skip fs fuel crate st line rest hc] at h
      exact ih _ _ _ h
    | false =>
      cases he : extcrateMatch crate (rtrim line) with
      | true =>
        rw [binrs_step_ext fs fuel crate st line rest hc he] at h
        split at h
        · cases h
        · rename_i stA outA heq1
          split at h
          · cases h
          · rename_i stB outB heq2
            cases h
            exact fun x hx =>
              ih _ _ _ heq2 (librs_skip_mono fs fuel st stA outA heq1 hx)
      | false =>
        cases hu : usecrateCapture crate (rtrim line) with
        | some p =>
          by_cases hp : p ∈ st.skip_use
          · rw [binrs_step_use_skip fs fuel crate st line p rest hc he hu hp] at h
            exact ih _ _ _ h
          · rw [binrs_step_use_emit fs fuel crate st line p rest hc he hu hp] at h
            split at h
            · cases h
            · rename_i stB outB heq
              cases h
              exact fun x hx => ih _ _ _ heq hx
        | none =>
          rw [binrs_step_plain fs fuel crate st line rest hc he hu] at h
          split at h
          · cases h
          · rename_i stB outB heq
            cases h
            exact fun x hx => ih _ _ _ heq hx

theorem binrs_skip_mono (fs : FS) (fuel : Nat) (st st2 : Bundler) (out : List String)
    (h : binrs fs fuel st = .ok (st2, out)) : st.skip_use ⊆ st2.skip_use := by
  unfold binrs at h
  cases ho : fsOpen fs st.binrs_filename with
  | none => rw [ho] at h; cases h
  | some lines =>
    rw [ho] at h
    exact binrsLines_skip_mono fs fuel st._crate_name lines st st2 out h

theorem run_skip_mono (fs : FS) (fuel : Nat) (st st2 : Bundler) (out : List String)
    (h : run fs fuel st = .ok (st2, out)) : st.skip_use ⊆ st2.skip_use :=
  binrs_skip_mono fs fuel st st2 out h

/-! ### Depth-first expansion of a well-formed module forest -/

theorem treeF_aux (fs : FS) (cs : MForest) :
    ∀ (fuel : Nat) (st : Bundler) (path imp : String),
      wfF cs = true →
      fsHasF fs (parentDir st.librs_filename) path cs = true →
      needF cs ≤ fuel →
      ∃ su, engine fs fuel (.elines st path imp (bodyLines cs)) =
        .ok ({ st with skip_use := su }, outF cs) := by
  induction cs with
  | fnil =>
    intro fuel st path imp _ _ hn
    simp only [needF] at hn
    obtain ⟨f, rfl⟩ : ∃ f, fuel = f + 1 := ⟨fuel - 1, by omega⟩
    exact ⟨st.skip_use, elines_nil fs f st path imp⟩
  | fmod n c r ihc ihr =>
    intro fuel st path imp hwf hfs hn
    have hwf' : goodName n = true ∧ n ≠ "tests" ∧ wfF c = true ∧ wfF r = true := by
      simpa [wfF, Bool.and_eq_true, bne_iff_ne, and_assoc] using hwf
    have hfs' : fsOpen fs
          (pathJoin (parentDir st.librs_filename) ((path ++ "/" ++ n) ++ ".rs"))
          = some (bodyLines c)
        ∧ fsHasF fs (parentDir st.librs_filename) (path ++ "/" ++ n) c = true
        ∧ fsHasF fs (parentDir st.librs_filename) path r = true := by
      simpa [fsHasF, Bool.and_eq_true, and_assoc] using hfs
    simp only [needF] at hn
    obtain ⟨f, rfl⟩ : ∃ f, fuel = f + 1 := ⟨fuel - 1, by omega⟩
    obtain ⟨f2, rfl⟩ : ∃ f2, f = f2 + 1 := ⟨f - 1, by omega⟩
    have hline : rtrim ("mod " ++ n ++ ";") = "mod " ++ n ++ ";" := rtrim_semi _
    have hcap : modCapture ("mod " ++ n ++ ";") = some n := modCapture_modLine n hwf'.1
    have hshape := modCapture_shape _ _ hcap
    have hc : (st.strip_comments &&
        (commentMatch (rtrim ("mod " ++ n ++ ";")) ||
          warnMatch (rtrim ("mod " ++ n ++ ";")))) = false := by
      rw [hline, hshape.1, hshape.2]
      simp
    have hm : modCapture (rtrim ("mod " ++ n ++ ";")) = some n := by
      rw [hline]
      exact hcap
    have hres : resolveMod fs (parentDir st.librs_filename) (path ++ "/" ++ n)
        = some (bodyLines c) := by
      unfold resolveMod
      rw [hfs'.1]
    obtain ⟨su1, hsu1⟩ := ihc f2
      { st with skip_use := hsInsert (imp ++ "::" ++ n) st.skip_use }
      (path ++ "/" ++ n) (imp ++ "::" ++ n) hwf'.2.2.1 hfs'.2.1 (by omega)
    have hsu1' : engine fs f2
        (.elines { st with skip_use := hsInsert (imp ++ "::" ++ n) st.skip_use }
          (path ++ "/" ++ n) (imp ++ "::" ++ n) (bodyLines c))
        = .ok ({ st with skip_use := su1 }, outF c) := hsu1
    have hchild : engine fs (f2+1)
        (.emod st n (path ++ "/" ++ n) (imp ++ "::" ++ n))
        = .ok ({ st with skip_use := su1 },
          ("pub mod " ++ n ++ " \x7b") :: (outF c ++ ["\x7d"])) :=
      emod_ok fs f2 st n (path ++ "/" ++ n) (imp ++ "::" ++ n) (bodyLines c) _ _ hres hsu1'
    have hfsr : fsHasF fs
        (parentDir ({ st with skip_use := su1 } : Bundler).librs_filename) path r
        = true := hfs'.2.2
    obtain ⟨su2, hsu2⟩ := ihr (f2+1) { st with skip_use := su1 } path imp
      hwf'.2.2.2 hfsr (by omega)
    have hsu2' : engine fs (f2+1)
        (.elines { st with skip_use := su1 } path imp (bodyLines r))
        = .ok ({ st with skip_use := su2 }, outF r) := hsu2
    exact ⟨su2, elines_mod_ok fs (f2+1) st path imp ("mod " ++ n ++ ";") n
      (bodyLines r) _ _ _ _ hc hm hwf'.2.1 hchild hsu2'⟩
  | fplain s r ihr =>
    intro fuel st path imp hwf hfs hn
    have hwf' : plainLine s = true ∧ wfF r = true := by
      simpa [wfF, Bool.and_eq_true] using hwf
    obtain ⟨hrt, hlt, hcm, hwn, hmc⟩ := plainLine_spec s hwf'.1
    simp only [needF] at hn
    obtain ⟨f, rfl⟩ : ∃ f, fuel = f + 1 := ⟨fuel - 1, by omega⟩
    have hfs2 : fsHasF fs (parentDir st.librs_filename) path r = true := hfs
    obtain ⟨su, hsu⟩ := ihr f st path imp hwf'.2 hfs2 (by omega)
    have hc : (st.strip_comments && (commentMatch (rtrim s) || warnMatch (rtrim s))) = false := by
      rw [hrt, hcm, hwn]
      simp
    have hm : modCapture (rtrim s) = none := by
      rw [hrt]
      exact hmc
    have hstep := elines_plain_ok fs f st path imp s (bodyLines r) _ _ hc hm hsu
    rw [hrt, write_line_plain st s hlt] at hstep
    exact ⟨su, hstep⟩

/-- Depth-first expansion of one module whose file realizes a well-formed
forest: the output is the opening marker, the forest's depth-first
emission, and the closing brace. -/
theorem usemod_forest (fs : FS) (cs : MForest) (fuel : Nat) (st : Bundler)
    (mod_name mod_path mod_import : String)
    (hwf : wfF cs = true)
    (hroot : resolveMod fs (parentDir st.librs_filename) mod_path = some (bodyLines cs))
    (hfs : fsHasF fs (parentDir st.librs_filename) mod_path cs = true)
    (hn : needF cs + 1 ≤ fuel) :
    ∃ su, usemod fs fuel st mod_name mod_path mod_import =
      .ok ({ st with skip_use := su },
        ("pub mod " ++ mod_name ++ " \x7b") :: (outF cs ++ ["\x7d"])) := by
  obtain ⟨f, rfl⟩ : ∃ f, fuel = f + 1 := ⟨fuel - 1, by omega⟩
  have hfs2 : fsHasF fs
      (parentDir ({ st with skip_use := hsInsert mod_import st.skip_use } : Bundler).librs_filename)
      mod_path cs = true := hfs
  obtain ⟨su, hsu⟩ := treeF_aux fs cs f
    { st with skip_use := hsInsert mod_import st.skip_use } mod_path mod_import
    hwf hfs2 (by omega)
  have hsu' : engine fs f
      (.elines { st with skip_use := hsInsert mod_import st.skip_use }
        mod_path mod_import (bodyLines cs))
      = .ok ({ st with skip_use := su }, outF cs) := hsu
  exact ⟨su, emod_ok fs f st mod_name mod_path mod_import (bodyLines cs) _ _ hroot hsu'⟩

/-- Streaming a module file whose right-trimmed lines are all plain, with
comment stripping and minification off, copies the lines right-trimmed. -/
theorem elines_all_plain (fs : FS) :
    ∀ (lines : List String) (fuel : Nat) (st : Bundler) (p i : String),
      st.strip_comments = false → st.minify_re = false →
      (∀ l ∈ lines, modCapture (rtrim l) = none) →
      lines.length + 1 ≤ fuel →
      engine fs fuel (.elines st p i lines) = .ok (st, lines.map rtrim) := by
  intro lines
  induction lines with
  | nil =>
    intro fuel st p i _ _ _ hn
    obtain ⟨f, rfl⟩ : ∃ f, fuel = f + 1 := ⟨fuel - 1, by omega⟩
    exact elines_nil fs f st p i
  | cons line rest ih =>
    intro fuel st p i hstrip hmin hall hn
    simp only [List.length_cons] at hn
    obtain ⟨f, rfl⟩ : ∃ f, fuel = f + 1 := ⟨fuel - 1, by omega⟩
    have hc : (st.strip_comments &&
        (commentMatch (rtrim line) || warnMatch (rtrim line))) = false := by
      rw [hstrip]
      simp
    have hm := hall line (List.mem_cons_self line rest)
    have hrest := ih f st p i hstrip hmin
      (fun l hl => hall l (List.mem_cons_of_mem _ hl)) (by omega)
    have hw : write_line st (rtrim line) = rtrim line := by
      unfold write_line
      rw [hmin]
      simp
    have hstep := elines_plain_ok fs f st p i line rest _ _ hc hm hrest
    rw [hw] at hstep
    exact hstep

/-- On a successful module expansion the module's import path has been
inserted into the skip set (at the moment expansion began) and is still
present at the end. -/
theorem usemod_registers (fs : FS) (fuel : Nat) (st : Bundler) (n p i : String)
    (st2 : Bundler) (out : List String)
    (h : usemod fs fuel st n p i = .ok (st2, out)) : i ∈ st2.skip_use := by
  cases fuel with
  | zero => exact absurd h (by simp [usemod, engine])
  | succ f =>
    have h' : engine fs (f+1) (.emod st n p i) = .ok (st2, out) := h
    cases hr : resolveMod fs (parentDir st.librs_filename) p with
    | none => rw [emod_unfold_missing fs f st n p i hr] at h'; cases h'
    | some lines =>
      rw [emod_unfold_found fs f st n p i lines hr] at h'
      split at h'
      · cases h'
      · rename_i stA outA heq
        cases h'
        exact engine_skip_mono fs f _ _ _ heq (mem_hsInsert_self i st.skip_use)

theorem binrs_plain_ok (fs : FS) (fuel : Nat) (crate : String) (st : Bundler)
    (line : String) (rest : List String) (stB : Bundler) (outB : List String)
    (hc : (st.strip_comments && (commentMatch (rtrim line) || warnMatch (rtrim line))) = false)
    (he : extcrateMatch crate (rtrim line) = false)
    (hu : usecrateCapture crate (rtrim line) = none)
    (h2 : binrsLines fs fuel crate st rest = .ok (stB, outB)) :
    binrsLines fs fuel crate st (line :: rest) =
      .ok (stB, write_line st (rtrim line) :: outB) := by
  rw [binrs_step_plain fs fuel crate st line rest hc he hu, h2]

theorem librs_plain_ok (fs : FS) (fuel : Nat) (st : Bundler)
    (line : String) (rest : List String) (stB : Bundler) (outB : List String)
    (hc : (st.strip_comments && (commentMatch line || warnMatch line)) = false)
    (hm : modCapture line = none)
    (h2 : librsLines fs fuel st rest = .ok (stB, outB)) :
    librsLines fs fuel st (line :: rest) =
      .ok (stB, write_line st line :: outB) := by
  rw [librs_step_plain fs fuel st line rest hc hm, h2]

/-! ### The claims -/

/-- C1, counterexample: in `fsSelfUse` the module body of `a` holds the
library-use line `use mylib::a;` whose captured path `a` is in the skip
set from the moment `a`'s expansion begins, yet the generated file
contains that import line verbatim — module bodies are never tested
against the use pattern, so the claimed elision inside module bodies
does not happen. -/
theorem C1_cex :
    run fsSelfUse 10 stMylib =
      .ok (stSelfUseAfter, ["pub mod a \x7b", "use mylib::a;", "\x7d"])
    ∧ usecrateCapture "mylib" "use mylib::a;" = some "a"
    ∧ "a" ∈ stSelfUseAfter.skip_use
    ∧ "use mylib::a;" ∈ ["pub mod a \x7b", "use mylib::a;", "\x7d"] :=
  ⟨by rfl, by rfl, by decide, by decide⟩

/-- C1 (amended): library-use elision happens only in the entry-file
walk — there, a use line whose captured path is in `skip_use` is elided
(first conjunct).  Inside a module body, lines are never matched
against the use pattern: any non-stripped line that is not a module
declaration — a self-referential library import included — is emitted
verbatim through `write_line` (second conjunct).  The module's import
path is registered the instant its expansion begins, and is present in
the final state of every successful expansion (third conjunct). -/
theorem C1_thm :
    (∀ (fs : FS) (fuel : Nat) (crate : String) (st : Bundler) (line p : String)
        (rest : List String),
      (st.strip_comments && (commentMatch (rtrim line) || warnMatch (rtrim line))) = false →
      extcrateMatch crate (rtrim line) = false →
      usecrateCapture crate (rtrim line) = some p → p ∈ st.skip_use →
      binrsLines fs fuel crate st (line :: rest) = binrsLines fs fuel crate st rest)
    ∧ (∀ (fs : FS) (fuel : Nat) (st : Bundler) (p i line : String) (rest : List String)
        (stB : Bundler) (outB : List String),
      (st.strip_comments && (commentMatch (rtrim line) || warnMatch (rtrim line))) = false →
      modCapture (rtrim line) = none →
      engine fs fuel (.elines st p i rest) = .ok (stB, outB) →
      engine fs (fuel+1) (.elines st p i (line :: rest)) =
        .ok (stB, write_line st (rtrim line) :: outB))
    ∧ (∀ (fs : FS) (fuel : Nat) (st : Bundler) (n p i : String) (st2 : Bundler)
        (out : List String),
      usemod fs fuel st n p i = .ok (st2, out) → i ∈ st2.skip_use) :=
  ⟨fun fs fuel crate st line p rest hc he hu hp =>
      binrs_step_use_skip fs fuel crate st line p rest hc he hu hp,
    fun fs fuel st p i line rest stB outB hc hm h2 =>
      elines_plain_ok fs fuel st p i line rest stB outB hc hm h2,
    fun fs fuel st n p i st2 out h => usemod_registers fs fuel st n p i st2 out h⟩

/-- C1, witness: the three conjuncts of the amended claim evaluated on
the `fsSelfUse` scenario. -/
theorem C1_wit :
    binrsLines fsSelfUse 3 "mylib" stSelfUseAfter ["use mylib::a;"] =
      binrsLines fsSelfUse 3 "mylib" stSelfUseAfter []
    ∧ engine fsSelfUse 2 (.elines stMylib "a" "a" ["use mylib::a;"]) =
        .ok (stMylib, write_line stMylib (rtrim "use mylib::a;") :: [])
    ∧ "a" ∈ stSelfUseAfter.skip_use :=
  ⟨C1_thm.1 fsSelfUse 3 "mylib" stSelfUseAfter "use mylib::a;" "a" []
      (by decide) (by decide) (by decide) (by decide),
    C1_thm.2.1 fsSelfUse 1 stMylib "a" "a" "use mylib::a;" [] stMylib []
      (by decide) (by decide) (by rfl),
    C1_thm.2.2 fsSelfUse 5 stMylib "a" "a" "a" stSelfUseAfter
      ["pub mod a \x7b", "use mylib::a;", "\x7d"] (by rfl)⟩

/-- C2: emission is the depth-first, declaration-order traversal.  For
every well-formed module forest realized on the filesystem, expanding
the module produces exactly `outF`: the opening marker, then each item
in declaration order — plain body lines in place, each nested module
fully expanded (descendants included, recursively as `outF` of its own
children) before the next sibling item — and the closing brace. -/
theorem C2_thm (fs : FS) (cs : MForest) (fuel : Nat) (st : Bundler)
    (mod_name mod_path mod_import : String)
    (hwf : wfF cs = true)
    (hroot : resolveMod fs (parentDir st.librs_filename) mod_path = some (bodyLines cs))
    (hfs : fsHasF fs (parentDir st.librs_filename) mod_path cs = true)
    (hn : needF cs + 1 ≤ fuel) :
    ∃ su, usemod fs fuel st mod_name mod_path mod_import =
      .ok ({ st with skip_use := su },
        ("pub mod " ++ mod_name ++ " \x7b") :: (outF cs ++ ["\x7d"])) :=
  usemod_forest fs cs fuel st mod_name mod_path mod_import hwf hroot hfs hn

/-- C2, witness: the spec's example `A { B { D }, C }`: the module-open
markers appear in the order `A, B, D, C`, siblings fully expanded
before the next sibling starts. -/
theorem C2_wit :
    (∃ su, usemod fsTreeA 10 stTreeA "A" "A" "A" =
      .ok ({ stTreeA with skip_use := su },
        ("pub mod " ++ "A" ++ " \x7b") :: (outF forestA ++ ["\x7d"])))
    ∧ ("pub mod " ++ "A" ++ " \x7b") :: (outF forestA ++ ["\x7d"]) =
      ["pub mod A \x7b", "pub mod B \x7b", "pub mod D \x7b", "\x7d", "\x7d",
        "pub mod C \x7b", "\x7d", "\x7d"] :=
  ⟨C2_thm fsTreeA forestA 10 stTreeA "A" "A" "A" (by decide) (by rfl) (by decide)
      (by decide),
    by rfl⟩

/-- C3: module resolution tries exactly the flat file
`<src_dir>/<mod_path>.rs` first and the directory-style
`<src_dir>/<mod_path>/mod.rs` second, both relative to the library
root's directory, using the first that opens; when neither opens the
expansion is the fatal `modNotFound` outcome, which carries no output
(the run aborts without a complete bundle). -/
theorem C3_thm (fs : FS) (st : Bundler) (fuel : Nat)
    (mod_name mod_path mod_import : String) (ls : List String) :
    (fsOpen fs (pathJoin (parentDir st.librs_filename) (mod_path ++ ".rs")) = some ls →
      resolveMod fs (parentDir st.librs_filename) mod_path = some ls)
    ∧ (fsOpen fs (pathJoin (parentDir st.librs_filename) (mod_path ++ ".rs")) = none →
      resolveMod fs (parentDir st.librs_filename) mod_path =
        fsOpen fs (pathJoin (pathJoin (parentDir st.librs_filename) mod_path) "mod.rs"))
    ∧ (resolveMod fs (parentDir st.librs_filename) mod_path = none →
      usemod fs (fuel+1) st mod_name mod_path mod_import =
        .error (.modNotFound mod_path)) := by
  refine ⟨?_, ?_, ?_⟩
  · intro h
    unfold resolveMod
    rw [h]
  · intro h
    unfold resolveMod
    rw [h]
  · intro h
    exact emod_unfold_missing fs fuel st mod_name mod_path mod_import h

/-- C3, witness: a flat-layout hit, a directory-layout fallback, and a
fatal miss on the empty filesystem. -/
theorem C3_wit :
    resolveMod [("src/m.rs", ["x"])] "src" "m" = some ["x"]
    ∧ resolveMod [("src/m/mod.rs", ["y"])] "src" "m" = some ["y"]
    ∧ usemod [] 5 stTreeA "m" "m" "m" = .error (.modNotFound "m") :=
  ⟨(C3_thm [("src/m.rs", ["x"])] stTreeA 4 "m" "m" "m" ["x"]).1 (by rfl),
    ((C3_thm [("src/m/mod.rs", ["y"])] stTreeA 4 "m" "m" "m" []).2.1 (by rfl)).trans
      (by rfl),
    (C3_thm [] stTreeA 4 "m" "m" "m" []).2.2 (by rfl)⟩

/-- C4: the skip set starts as the singleton wildcard, insertion adds
exactly the module's import path (set union with a singleton), the
registration happens the instant a resolved module's expansion begins
(the body is streamed with `skip_use` already extended), a successful
expansion leaves the import in the final skip set, every walk only
grows the set (no operation removes an entry), and a use line whose
captured path is in the set contributes nothing to the output. -/
theorem C4_thm :
    (∀ (b f l : String), (Bundler.new_with_librs b f l).skip_use = ["*"])
    ∧ (∀ (x a : String) (l : List String), x ∈ hsInsert a l ↔ x = a ∨ x ∈ l)
    ∧ (∀ (fs : FS) (fuel : Nat) (st : Bundler) (n p i : String) (lines : List String),
        resolveMod fs (parentDir st.librs_filename) p = some lines →
        engine fs (fuel+1) (.emod st n p i) =
          match engine fs fuel
              (.elines { st with skip_use := hsInsert i st.skip_use } p i lines) with
          | .error e => .error e
          | .ok (st2, out) =>
            .ok (st2, ("pub mod " ++ n ++ " \x7b") :: (out ++ ["\x7d"])))
    ∧ (∀ (fs : FS) (fuel : Nat) (st : Bundler) (n p i : String) (st2 : Bundler)
        (out : List String),
        usemod fs fuel st n p i = .ok (st2, out) → i ∈ st2.skip_use)
    ∧ (∀ (fs : FS) (fuel : Nat) (crate : String) (lines : List String)
        (st st2 : Bundler) (out : List String),
        binrsLines fs fuel crate st lines = .ok (st2, out) →
        st.skip_use ⊆ st2.skip_use)
    ∧ (∀ (fs : FS) (fuel : Nat) (st st2 : Bundler) (out : List String),
        run fs fuel st = .ok (st2, out) → st.skip_use ⊆ st2.skip_use)
    ∧ (∀ (fs : FS) (fuel : Nat) (crate : String) (st : Bundler) (line p : String)
        (rest : List String),
        (st.strip_comments && (commentMatch (rtrim line) || warnMatch (rtrim line))) = false →
        extcrateMatch crate (rtrim line) = false →
        usecrateCapture crate (rtrim line) = some p → p ∈ st.skip_use →
        binrsLines fs fuel crate st (line :: rest) = binrsLines fs fuel crate st rest) :=
  ⟨fun _ _ _ => rfl,
    fun x a l => mem_hsInsert x a l,
    fun fs fuel st n p i lines hr => emod_unfold_found fs fuel st n p i lines hr,
    fun fs fuel st n p i st2 out h => usemod_registers fs fuel st n p i st2 out h,
    fun fs fuel crate lines st st2 out h =>
      binrsLines_skip_mono fs fuel crate lines st st2 out h,
    fun fs fuel st st2 out h => run_skip_mono fs fuel st st2 out h,
    fun fs fuel crate st line p rest hc he hu hp =>
      binrs_step_use_skip fs fuel crate st line p rest hc he hu hp⟩

/-- C4, witness: the conjuncts evaluated on the `fsSelfUse` scenario. -/
theorem C4_wit :
    (Bundler.new_with_librs "m.rs" "b.rs" "src/lib.rs").skip_use = ["*"]
    ∧ ("a" ∈ hsInsert "a" ["*"] ↔ "a" = "a" ∨ "a" ∈ ["*"])
    ∧ engine fsSelfUse 5 (.emod stMylib "a" "a" "a") =
        .ok (stSelfUseAfter, ["pub mod a \x7b", "use mylib::a;", "\x7d"])
    ∧ "a" ∈ stSelfUseAfter.skip_use
    ∧ stMylib.skip_use ⊆ stSelfUseAfter.skip_use
    ∧ binrsLines fsSelfUse 3 "mylib" stSelfUseAfter ["use mylib::a;"] =
        binrsLines fsSelfUse 3 "mylib" stSelfUseAfter [] :=
  ⟨C4_thm.1 "m.rs" "b.rs" "src/lib.rs",
    C4_thm.2.1 "a" "a" ["*"],
    (C4_thm.2.2.1 fsSelfUse 4 stMylib "a" "a" "a" ["use mylib::a;"] (by rfl)).trans
      (by rfl),
    C4_thm.2.2.2.1 fsSelfUse 5 stMylib "a" "a" "a" stSelfUseAfter
      ["pub mod a \x7b", "use mylib::a;", "\x7d"] (by rfl),
    C4_thm.2.2.2.2.2.1 fsSelfUse 10 stMylib stSelfUseAfter
      ["pub mod a \x7b", "use mylib::a;", "\x7d"] (by rfl),
    C4_thm.2.2.2.2.2.2 fsSelfUse 3 "mylib" stSelfUseAfter "use mylib::a;" "a" []
      (by decide) (by decide) (by decide) (by decide)⟩

/-- C5: the configured exclusion set contains `tests` from construction
on, every setter keeps it there (`exclude_mod` only inserts, the other
setters do not touch `skip_mod`), the expansion engine never changes
`skip_mod`, a root-file declaration whose captured name is `tests` is
dropped whenever `tests` is in `skip_mod` (which every reachable
configuration satisfies), and a nested declaration capturing `tests` is
dropped unconditionally — in both cases the state is left untouched, so
nothing is expanded and no import path is registered. -/
theorem C5_thm :
    (∀ (b f l : String), "tests" ∈ (Bundler.new_with_librs b f l).skip_mod)
    ∧ (∀ (st : Bundler) (m : String),
        "tests" ∈ st.skip_mod → "tests" ∈ (st.exclude_mod m).skip_mod)
    ∧ (∀ (st : Bundler) (e : Bool) (nm : String),
        (st.minify_set e).skip_mod = st.skip_mod
        ∧ (st.strip_comments_set e).skip_mod = st.skip_mod
        ∧ (st.crate_name nm).skip_mod = st.skip_mod)
    ∧ (∀ (fs : FS) (fuel : Nat) (j : Job) (st2 : Bundler) (out : List String),
        engine fs fuel j = .ok (st2, out) → st2.skip_mod = (jobSt j).skip_mod)
    ∧ (∀ (fs : FS) (fuel : Nat) (st : Bundler) (line : String) (rest : List String),
        modCapture line = some "tests" → "tests" ∈ st.skip_mod →
        librsLines fs fuel st (line :: rest) = librsLines fs fuel st rest)
    ∧ (∀ (fs : FS) (fuel : Nat) (st : Bundler) (p i line : String) (rest : List String),
        modCapture (rtrim line) = some "tests" →
        engine fs (fuel+1) (.elines st p i (line :: rest)) =
          engine fs fuel (.elines st p i rest)) := by
  refine ⟨?_, ?_, ?_, ?_, ?_, ?_⟩
  · intro b f l
    exact List.mem_singleton_self "tests"
  · intro st m h
    exact (mem_hsInsert "tests" m st.skip_mod).mpr (.inr h)
  · intro st e nm
    exact ⟨rfl, rfl, rfl⟩
  · intro fs fuel j st2 out h
    rw [engine_fields fs fuel j st2 out h]
  · intro fs fuel st line rest hm hmem
    obtain ⟨h1, h2⟩ := modCapture_shape line "tests" hm
    have hc : (st.strip_comments && (commentMatch line || warnMatch line)) = false := by
      rw [h1, h2]
      simp
    exact librs_step_skipmod fs fuel st line "tests" rest hc hm hmem
  · intro fs fuel st p i line rest hm
    obtain ⟨h1, h2⟩ := modCapture_shape (rtrim line) "tests" hm
    have hc : (st.strip_comments &&
        (commentMatch (rtrim line) || warnMatch (rtrim line))) = false := by
      rw [h1, h2]
      simp
    exact elines_step_tests fs fuel st p i line rest hc hm

/-- C5, witness: the conjuncts evaluated on concrete states and the
literal line `mod tests;`. -/
theorem C5_wit :
    "tests" ∈ (Bundler.new_with_librs "m.rs" "b.rs" "src/lib.rs").skip_mod
    ∧ "tests" ∈ (stMylib.exclude_mod "helper").skip_mod
    ∧ stSelfUseAfter.skip_mod = stMylib.skip_mod
    ∧ librsLines fsSelfUse 3 stMylib ["mod tests;"] = librsLines fsSelfUse 3 stMylib []
    ∧ engine fsSelfUse 3 (.elines stMylib "a" "a" ["mod tests;"]) =
        engine fsSelfUse 2 (.elines stMylib "a" "a" []) :=
  ⟨C5_thm.1 "m.rs" "b.rs" "src/lib.rs",
    C5_thm.2.1 stMylib "helper" (by decide),
    C5_thm.2.2.2.1 fsSelfUse 5 (.emod stMylib "a" "a" "a") stSelfUseAfter
      ["pub mod a \x7b", "use mylib::a;", "\x7d"] (by rfl),
    C5_thm.2.2.2.2.1 fsSelfUse 3 stMylib "mod tests;" [] (by decide) (by decide),
    C5_thm.2.2.2.2.2 fsSelfUse 2 stMylib "a" "a" "mod tests;" [] (by decide)⟩

/-- C6, counterexample: with minification enabled, the library-root line
`   let x = 1;   ` is emitted as `let x = 1;   ` — leading whitespace
stripped (by the minify replacement) but trailing whitespace preserved:
the greedy `.*` in `^\s*(?P<contents>.*)\s*$` captures the trailing
whitespace, and the root-file walk removed only the newline, never the
trailing blanks.  The claimed output `let x = 1;` differs. -/
theorem C6_cex :
    run fsMinify 10 stMinify = .ok (stMinify, ["let x = 1;   "])
    ∧ ("let x = 1;   " : String) ≠ "let x = 1;" :=
  ⟨by rfl, by decide⟩

/-- C6 (amended): with minification enabled `write_line` strips exactly
the leading whitespace of what it is given (first conjunct).  Entry-file
and module-file lines are right-trimmed before emission, so their
minified form carries no surrounding whitespace (second and third
conjuncts, where the emitted line is `write_line st (rtrim line)`);
library-root lines reach `write_line` raw — only the newline was
removed — so their trailing whitespace survives minification (fourth
conjunct, where the emitted line is `write_line st line`).  Internal
spacing is never touched. -/
theorem C6_thm :
    (∀ (st : Bundler) (l : String), st.minify_re = true → write_line st l = ltrim l)
    ∧ (∀ (fs : FS) (fuel : Nat) (crate : String) (st : Bundler) (line : String)
        (rest : List String) (stB : Bundler) (outB : List String),
        (st.strip_comments && (commentMatch (rtrim line) || warnMatch (rtrim line))) = false →
        extcrateMatch crate (rtrim line) = false →
        usecrateCapture crate (rtrim line) = none →
        binrsLines fs fuel crate st rest = .ok (stB, outB) →
        binrsLines fs fuel crate st (line :: rest) =
          .ok (stB, write_line st (rtrim line) :: outB))
    ∧ (∀ (fs : FS) (fuel : Nat) (st : Bundler) (p i line : String) (rest : List String)
        (stB : Bundler) (outB : List String),
        (st.strip_comments && (commentMatch (rtrim line) || warnMatch (rtrim line))) = false →
        modCapture (rtrim line) = none →
        engine fs fuel (.elines st p i rest) = .ok (stB, outB) →
        engine fs (fuel+1) (.elines st p i (line :: rest)) =
          .ok (stB, write_line st (rtrim line) :: outB))
    ∧ (∀ (fs : FS) (fuel : Nat) (st : Bundler) (line : String) (rest : List String)
        (stB : Bundler) (outB : List String),
        (st.strip_comments && (commentMatch line || warnMatch line)) = false →
        modCapture line = none →
        librsLines fs fuel st rest = .ok (stB, outB) →
        librsLines fs fuel st (line :: rest) =
          .ok (stB, write_line st line :: outB)) := by
  refine ⟨?_, ?_, ?_, ?_⟩
  · intro st l h
    unfold write_line
    rw [h]
    simp
  · intro fs fuel crate st line rest stB outB hc he hu h2
    exact binrs_plain_ok fs fuel crate st line rest stB outB hc he hu h2
  · intro fs fuel st p i line rest stB outB hc hm h2
    exact elines_plain_ok fs fuel st p i line rest stB outB hc hm h2
  · intro fs fuel st line rest stB outB hc hm h2
    exact librs_plain_ok fs fuel st line rest stB outB hc hm h2

/-- C6, witness: the minify replacement and the library-root emission
evaluated on the spec's example line. -/
theorem C6_wit :
    write_line stMinify "   let x = 1;   " = ltrim "   let x = 1;   "
    ∧ librsLines fsMinify 3 stMinify ["   let x = 1;   "] =
        .ok (stMinify, write_line stMinify "   let x = 1;   " :: [])
    ∧ engine fsMinify 2 (.elines stMinify "a" "a" ["   let x = 1;   "]) =
        .ok (stMinify, write_line stMinify (rtrim "   let x = 1;   ") :: []) :=
  ⟨C6_thm.1 stMinify "   let x = 1;   " (by rfl),
    C6_thm.2.2.2 fsMinify 3 stMinify "   let x = 1;   " [] stMinify []
      (by decide) (by decide) (by rfl),
    C6_thm.2.2.1 fsMinify 1 stMinify "a" "a" "   let x = 1;   " [] stMinify []
      (by decide) (by decide) (by rfl)⟩

/-- C7, counterexample: the library-root line `x();  ` keeps its
trailing whitespace in the output: `librs` removes only the trailing
newline (`line.pop()`), not trailing whitespace, so the line is emitted
as `x();  ` where the claim requires `x();`. -/
theorem C7_cex :
    run fsTrail 10 stMylib = .ok (stMylib, ["x();  "])
    ∧ rtrim "x();  " = "x();"
    ∧ ("x();  " : String) ≠ "x();" :=
  ⟨by rfl, by rfl, by decide⟩

/-- C7 (amended): the entry-file and module-file walks right-trim each
line before classifying and emitting it — processing a raw line equals
processing its right-trimmed form (first two conjuncts).  The
library-root walk removes only the trailing newline: its classification
sees the raw line and a plain line is emitted with its trailing
whitespace intact (third conjunct). -/
theorem C7_thm :
    (∀ (fs : FS) (fuel : Nat) (crate : String) (st : Bundler) (line : String)
        (rest : List String),
        binrsLines fs fuel crate st (line :: rest) =
          binrsLines fs fuel crate st (rtrim line :: rest))
    ∧ (∀ (fs : FS) (fuel : Nat) (st : Bundler) (p i line : String) (rest : List String),
        engine fs (fuel+1) (.elines st p i (line :: rest)) =
          engine fs (fuel+1) (.elines st p i (rtrim line :: rest)))
    ∧ (∀ (fs : FS) (fuel : Nat) (st : Bundler) (line : String) (rest : List String)
        (stB : Bundler) (outB : List String),
        (st.strip_comments && (commentMatch line || warnMatch line)) = false →
        modCapture line = none →
        librsLines fs fuel st rest = .ok (stB, outB) →
        librsLines fs fuel st (line :: rest) =
          .ok (stB, write_line st line :: outB)) := by
  refine ⟨?_, ?_, ?_⟩
  · intro fs fuel crate st line rest
    simp only [binrsLines]
    rw [rtrim_idem]
  · intro fs fuel st p i line rest
    simp only [engine]
    rw [rtrim_idem]
  · intro fs fuel st line rest stB outB hc hm h2
    exact librs_plain_ok fs fuel st line rest stB outB hc hm h2

/-- C7, witness: the amended conjuncts evaluated on the trailing-space
line of `fsTrail`. -/
theorem C7_wit :
    binrsLines fsTrail 3 "mylib" stMylib ["x();  "] =
      binrsLines fsTrail 3 "mylib" stMylib [rtrim "x();  "]
    ∧ engine fsTrail 3 (.elines stMylib "a" "a" ["x();  "]) =
        engine fsTrail 3 (.elines stMylib "a" "a" [rtrim "x();  "])
    ∧ librsLines fsTrail 3 stMylib ["x();  "] =
        .ok (stMylib, write_line stMylib "x();  " :: []) :=
  ⟨C7_thm.1 fsTrail 3 "mylib" stMylib "x();  " [],
    C7_thm.2.1 fsTrail 2 stMylib "a" "a" "x();  " [],
    C7_thm.2.2 fsTrail 3 stMylib "x();  " [] stMylib [] (by decide) (by decide)
      (by rfl)⟩

/-- C8: with comment stripping enabled, a line matching the
lint-attribute shape (`warn_re`) is dropped exactly like a comment line,
in all three walks: entry file, library root, and module files. -/
theorem C8_thm :
    (∀ (fs : FS) (fuel : Nat) (crate : String) (st : Bundler) (line : String)
        (rest : List String),
        st.strip_comments = true → warnMatch (rtrim line) = true →
        binrsLines fs fuel crate st (line :: rest) = binrsLines fs fuel crate st rest)
    ∧ (∀ (fs : FS) (fuel : Nat) (st : Bundler) (line : String) (rest : List String),
        st.strip_comments = true → warnMatch line = true →
        librsLines fs fuel st (line :: rest) = librsLines fs fuel st rest)
    ∧ (∀ (fs : FS) (fuel : Nat) (st : Bundler) (p i line : String) (rest : List String),
        st.strip_comments = true → warnMatch (rtrim line) = true →
        engine fs (fuel+1) (.elines st p i (line :: rest)) =
          engine fs fuel (.elines st p i rest)) := by
  refine ⟨?_, ?_, ?_⟩
  · intro fs fuel crate st line rest hstrip hw
    have hc : (st.strip_comments &&
        (commentMatch (rtrim line) || warnMatch (rtrim line))) = true := by
      rw [hstrip, hw]
      simp
    exact binrs_step_skip fs fuel crate st line rest hc
  · intro fs fuel st line rest hstrip hw
    have hc : (st.strip_comments && (commentMatch line || warnMatch line)) = true := by
      rw [hstrip, hw]
      simp
    exact librs_step_skip fs fuel st line rest hc
  · intro fs fuel st p i line rest hstrip hw
    have hc : (st.strip_comments &&
        (commentMatch (rtrim line) || warnMatch (rtrim line))) = true := by
      rw [hstrip, hw]
      simp
    exact elines_step_skip fs fuel st p i line rest hc

/-- C8, witness: the lint line `#![warn(unused)]` dropped in each walk. -/
theorem C8_wit :
    binrsLines fsTrail 3 "mylib" stMylib ["#![warn(unused)]"] =
      binrsLines fsTrail 3 "mylib" stMylib []
    ∧ librsLines fsTrail 3 stMylib ["#![warn(unused)]"] = librsLines fsTrail 3 stMylib []
    ∧ engine fsTrail 3 (.elines stMylib "a" "a" ["#![warn(unused)]"]) =
        engine fsTrail 2 (.elines stMylib "a" "a" []) :=
  ⟨C8_thm.1 fsTrail 3 "mylib" stMylib "#![warn(unused)]" [] (by rfl) (by decide),
    C8_thm.2.1 fsTrail 3 stMylib "#![warn(unused)]" [] (by rfl) (by decide),
    C8_thm.2.2 fsTrail 2 stMylib "a" "a" "#![warn(unused)]" [] (by rfl) (by decide)⟩

/-- C9, counterexample: a module file whose only (plain) line is
`x();  ` expands, with stripping and minification disabled, to the line
`x();` between the module markers — not to the input verbatim: the
module walk right-trims each line before emitting it. -/
theorem C9_cex :
    usemod fsLeaf 5 stLeaf "m" "m" "m" =
      .ok ({ stLeaf with skip_use := ["m", "*"] },
        ["pub mod m \x7b", "x();", "\x7d"])
    ∧ ["pub mod m \x7b", "x();", "\x7d"] ≠
        (["pub mod m \x7b"] ++ ["x();  "] ++ ["\x7d"]) :=
  ⟨by rfl, by decide⟩

/-- C9 (amended): a module file all of whose right-trimmed lines are
plain (no recognized declaration shape), with comment stripping and
minification disabled, expands to its input lines right-trimmed —
verbatim except for trailing whitespace — preceded by the opening
module-scope wrapper naming the module and followed by the closing
wrapper; the only state change is that the module's import path is
registered in the skip set. -/
theorem C9_thm (fs : FS) (fuel : Nat) (st : Bundler)
    (mod_name mod_path mod_import : String) (lines : List String)
    (hstrip : st.strip_comments = false) (hmin : st.minify_re = false)
    (hres : resolveMod fs (parentDir st.librs_filename) mod_path = some lines)
    (hplain : ∀ l ∈ lines, modCapture (rtrim l) = none)
    (hfuel : lines.length + 2 ≤ fuel) :
    usemod fs fuel st mod_name mod_path mod_import =
      .ok ({ st with skip_use := hsInsert mod_import st.skip_use },
        ("pub mod " ++ mod_name ++ " \x7b") :: (lines.map rtrim ++ ["\x7d"])) := by
  obtain ⟨f, rfl⟩ : ∃ f, fuel = f + 1 := ⟨fuel - 1, by omega⟩
  have h1 := elines_all_plain fs lines f
    { st with skip_use := hsInsert mod_import st.skip_use } mod_path mod_import
    hstrip hmin hplain (by omega)
  exact emod_ok fs f st mod_name mod_path mod_import lines _ _ hres h1

/-- C9, witness: a two-line plain module file round-trips (its lines
already right-trimmed). -/
theorem C9_wit :
    usemod [("src/n.rs", ["a();", "b();"])] 10 stLeaf "n" "n" "n" =
      .ok ({ stLeaf with skip_use := hsInsert "n" stLeaf.skip_use },
        ("pub mod " ++ "n" ++ " \x7b") :: (["a();", "b();"].map rtrim ++ ["\x7d"])) :=
  C9_thm [("src/n.rs", ["a();", "b();"])] 10 stLeaf "n" "n" "n" ["a();", "b();"]
    (by rfl) (by rfl) (by rfl) (by decide) (by decide)

/-- C10: `run` performs no reset — it is exactly the entry-file walk on
the state as it stands (first conjunct), and a successful run only
grows `skip_use` (second conjunct); concretely, over `fsTwoRun` the
first run emits the rewritten import `use a;` (the path `a` is not yet
skipped when the use line precedes the extern line) and then embeds
module `a`, while a second `run` on the resulting state elides that
same use line before — and independently of — any embedding in the
second run's own output. -/
theorem C10_thm :
    (∀ (fs : FS) (fuel : Nat) (st : Bundler), run fs fuel st = binrs fs fuel st)
    ∧ (∀ (fs : FS) (fuel : Nat) (st st2 : Bundler) (out : List String),
        run fs fuel st = .ok (st2, out) → st.skip_use ⊆ st2.skip_use)
    ∧ run fsTwoRun 30 stMylib =
        .ok (stTwoAfter, ["use a;", "pub mod a \x7b", "\x7d"])
    ∧ run fsTwoRun 30 stTwoAfter = .ok (stTwoAfter, ["pub mod a \x7b", "\x7d"]) :=
  ⟨fun _ _ _ => rfl,
    fun fs fuel st st2 out h => run_skip_mono fs fuel st st2 out h,
    by rfl,
    by rfl⟩

/-- C10, witness: persistence of the first run's registrations into the
second run's starting state. -/
theorem C10_wit : stMylib.skip_use ⊆ stTwoAfter.skip_use :=
  C10_thm.2.1 fsTwoRun 30 stMylib stTwoAfter ["use a;", "pub mod a \x7b", "\x7d"]
    C10_thm.2.2.1

end Sourcebundler
